import Mathlib

/-
Verification of the coin-collector state-synchronization engine:
a Node.js authoritative server (game loop, collision pass, artificial-latency
transport) and an HTML5-canvas client (snapshot buffers, clock-skew estimator,
buffered interpolation renderer).

Server source: src/unnamed/part_000.  Client source: src/client/client.js.
Positions, times and scores are embedded as exact rationals (the JS code uses
IEEE doubles; the properties verified here are the exact-arithmetic contracts
the spec states).  The movement integrator, whose normalization genuinely
needs a square root, is embedded over the reals in the `Motion` namespace.
-/

namespace CoinGame

/-! ## Configuration constants (part_000 lines 4-12) -/

def WORLD_WIDTH : ℚ := 800
def WORLD_HEIGHT : ℚ := 600
def PLAYER_RADIUS : ℚ := 15
def COIN_RADIUS : ℚ := 8
def BUFFER_CAP : ℕ := 50
def LAG_MS : ℕ := 100

/-! ## Server data model (part_000 lines 14-19, 44-60) -/

/-- Input intent flags, `player.input` (part_000 line 55). -/
structure Input where
  up : Bool
  down : Bool
  left : Bool
  right : Bool
deriving DecidableEq

/-- One entry of the `players` map: `{ id, x, y, vx, vy, score, input, ws }`
(part_000 lines 48-57).  The WebSocket object is identified by a numeric
handle `ws`. -/
structure Player where
  id : ℕ
  x : ℚ
  y : ℚ
  vx : ℚ
  vy : ℚ
  score : ℕ
  input : Input
  ws : ℕ
deriving DecidableEq

/-- One entry of the `coins` map: `{ id, x, y }` (part_000 lines 238-242). -/
structure Coin where
  id : ℕ
  x : ℚ
  y : ℚ
deriving DecidableEq

/-! ## Collision pass (part_000 lines 195-205, inside `gameLoop`) -/

/-- The collision test `Math.hypot(player.x - coin.x, player.y - coin.y)
<= PLAYER_RADIUS + COIN_RADIUS` (part_000 lines 198-199), written as the
equivalent comparison of squares: for nonnegative `r`,
`Real.sqrt d2 ≤ r ↔ d2 ≤ r ^ 2`.  Boundary-inclusive (`<=` in the source). -/
def collides (p : Player) (c : Coin) : Bool :=
  decide ((p.x - c.x) ^ 2 + (p.y - c.y) ^ 2 ≤ (PLAYER_RADIUS + COIN_RADIUS) ^ 2)

/-- The inner loop of the collision pass for one player: walk the coin map in
order; on overlap, `coins.delete(coinId); player.score += 1` (deleting the
current entry of a JS Map during iteration is safe and later entries are
still visited).  Returns the updated player and the surviving coins in
order. -/
def collectCoins : Player → List Coin → Player × List Coin
  | p, [] => (p, [])
  | p, c :: cs =>
    if collides p c then
      collectCoins { p with score := p.score + 1 } cs
    else
      let rest := collectCoins p cs
      (rest.1, c :: rest.2)

/-- The outer loop of the collision pass (part_000 lines 196-205): players in
World-Model insertion order, each scanning the coins that survived the
players before it. -/
def collisionPass : List Player → List Coin → List Player × List Coin
  | [], coins => ([], coins)
  | p :: ps, coins =>
    let pc := collectCoins p coins
    let rest := collisionPass ps pc.2
    (pc.1 :: rest.1, rest.2)

/-! ## Connection registry operations (part_000 lines 63-70, 133-158) -/

/-- `removePlayerBySocket` (part_000 lines 63-70): delete the first player
whose socket matches, then `break`. -/
def removePlayerBySocket : List Player → ℕ → List Player
  | [], _ => []
  | p :: ps, s => if p.ws = s then ps else p :: removePlayerBySocket ps s

/-- The socket-to-player lookup loop of `handleClientMessage`
(part_000 lines 137-143): first player whose `ws` matches. -/
def findBySocket : List Player → ℕ → Option Player
  | [], _ => none
  | p :: ps, s => if p.ws = s then some p else findBySocket ps s

/-- The `case "input"` body (part_000 lines 147-153): overwrite the found
player's input flags (the `!!` coercions are reflected in the `Bool` fields
of `ClientMsg`).  Mirrors find-then-mutate: only the first matching player
is updated. -/
def setInputBySocket : List Player → ℕ → Input → List Player
  | [], _, _ => []
  | p :: ps, s, inp =>
    if p.ws = s then { p with input := inp } :: ps
    else p :: setInputBySocket ps s inp

/-- An inbound message that parsed as a JSON object, with its `type` tag and
the four (already `!!`-coerced) flag fields. -/
structure ClientMsg where
  type : String
  up : Bool
  down : Bool
  left : Bool
  right : Bool
deriving DecidableEq

/-- Result of `JSON.parse` on a payload that did parse: either not an object
(`!msg || typeof msg !== "object"`, part_000 line 134) or an object. -/
inductive ParsedJson where
  | nonObject : ParsedJson
  | obj : ClientMsg → ParsedJson
deriving DecidableEq

/-- An inbound raw payload: `JSON.parse` either throws (malformed) or yields
a parsed value (part_000 lines 99-106). -/
inductive InboundPayload where
  | malformed : InboundPayload
  | parsed : ParsedJson → InboundPayload
deriving DecidableEq

/-- The authoritative server state touched by message handling: the player
map, the coin map, and the set of open socket handles (message handling
never closes a socket). -/
structure ServerState where
  players : List Player
  coins : List Coin
  openSockets : List ℕ
deriving DecidableEq

/-- `handleClientMessage` (part_000 lines 133-159): guard out non-objects,
look up the sender's player, dispatch on `msg.type` with `"input"` the only
recognized tag and a default case that ignores the message. -/
def handleClientMessage (st : ServerState) (ws : ℕ) (j : ParsedJson) : ServerState :=
  match j with
  | .nonObject => st
  | .obj m =>
    match findBySocket st.players ws with
    | none => st
    | some _ =>
      if m.type = "input" then
        { st with players := setInputBySocket st.players ws ⟨m.up, m.down, m.left, m.right⟩ }
      else st

/-- The `ws.on("message")` callback body after the artificial delay
(part_000 lines 98-107): a `JSON.parse` failure is logged (`console.warn`, a
side effect outside the world state) and the handler returns; otherwise the
parsed value goes to `handleClientMessage`. -/
def processInbound (st : ServerState) (ws : ℕ) (pl : InboundPayload) : ServerState :=
  match pl with
  | .malformed => st
  | .parsed j => handleClientMessage st ws j

/-! ## Wire snapshot (part_000 lines 207-230) -/

/-- One element of `snapshot.players` (part_000 lines 216-221). -/
structure PlayerSnap where
  id : ℕ
  x : ℚ
  y : ℚ
  score : ℕ
deriving DecidableEq

/-- One element of `snapshot.coins` (part_000 lines 225-229). -/
structure CoinSnap where
  id : ℕ
  x : ℚ
  y : ℚ
deriving DecidableEq

/-- The per-tick `state` snapshot (part_000 lines 208-230). -/
structure Snapshot where
  serverTime : ℚ
  players : List PlayerSnap
  coins : List CoinSnap
deriving DecidableEq

/-- Building the snapshot from the world model (part_000 lines 208-230):
players and coins serialized in map-iteration (insertion) order. -/
def buildSnapshot (now : ℚ) (players : List Player) (coins : List Coin) : Snapshot :=
  { serverTime := now
    players := players.map fun p => { id := p.id, x := p.x, y := p.y, score := p.score }
    coins := coins.map fun c => { id := c.id, x := c.x, y := c.y } }

/-! ## Client state (client.js lines 13-33, 84-124) -/

/-- One buffered sample `{ time, x, y, score }` (client.js lines 101-106). -/
structure Sample where
  time : ℚ
  x : ℚ
  y : ℚ
  score : ℕ
deriving DecidableEq

/-- The client state touched by `handleStateSnapshot`: the skew estimate
`serverTimeOffset` (seeded 0, client.js line 25), the per-player buffers
(a JS Map in insertion order, client.js line 21), and the coin list. -/
structure ClientState where
  serverTimeOffset : ℚ
  playerBuffers : List (ℕ × List Sample)
  coinList : List CoinSnap
deriving DecidableEq

/-- Initial client state (client.js lines 21-25). -/
def initClientState : ClientState :=
  { serverTimeOffset := 0, playerBuffers := [], coinList := [] }

/-- The eviction loop `while (buf.length > 50) buf.shift()`
(client.js lines 108-111): each iteration drops the front element, so the
loop's effect is dropping the excess count from the front. -/
def trimBuf (buf : List Sample) : List Sample :=
  buf.drop (buf.length - BUFFER_CAP)

/-- `buf.push(sample)` followed by the eviction loop (client.js 101-111). -/
def pushSample (buf : List Sample) (s : Sample) : List Sample :=
  trimBuf (buf ++ [s])

/-- The per-player buffer update (client.js lines 96-112): create the buffer
on first sight (`Map.set` appends a new key at the end of iteration order),
then push the sample and evict. -/
def pushSampleTo (bufs : List (ℕ × List Sample)) (id : ℕ) (s : Sample) :
    List (ℕ × List Sample) :=
  if bufs.any fun pr => pr.1 == id then
    bufs.map fun pr => if pr.1 == id then (pr.1, pushSample pr.2 s) else pr
  else
    bufs ++ [(id, pushSample [] s)]

/-- The `for (const p of players)` loop of `handleStateSnapshot`
(client.js lines 96-112). -/
def updateBuffers (bufs : List (ℕ × List Sample)) (serverTime : ℚ)
    (players : List PlayerSnap) : List (ℕ × List Sample) :=
  players.foldl (fun bs q => pushSampleTo bs q.id ⟨serverTime, q.x, q.y, q.score⟩) bufs

/-- The cleanup loop (client.js lines 114-120): delete every buffer whose id
is absent from the snapshot's player list. -/
def cleanupBuffers (bufs : List (ℕ × List Sample)) (players : List PlayerSnap) :
    List (ℕ × List Sample) :=
  bufs.filter fun pr => players.any fun q => q.id == pr.1

/-- `handleStateSnapshot` (client.js lines 84-124): exponential smoothing of
the clock-skew estimate, coin list replacement, buffer appends, then buffer
cleanup.  (`updateScores` only touches the DOM.) -/
def handleStateSnapshot (st : ClientState) (snap : Snapshot) (localNow : ℚ) : ClientState :=
  { serverTimeOffset := 0.9 * st.serverTimeOffset + 0.1 * (snap.serverTime - localNow)
    coinList := snap.coins
    playerBuffers :=
      cleanupBuffers (updateBuffers st.playerBuffers snap.serverTime snap.players)
        snap.players }

/-! ## Interpolation renderer (client.js lines 206-239) -/

/-- The linear-interpolation result (client.js lines 226-233):
`t = (T - a.time) / (b.time - a.time)`, position lerped, score taken from
the later sample `b`. -/
def lerpSample (a b : Sample) (T : ℚ) : Sample :=
  let t := (T - a.time) / (b.time - a.time)
  { time := T, x := a.x + (b.x - a.x) * t, y := a.y + (b.y - a.y) * t, score := b.score }

/-- The bracketing scan (client.js lines 222-235): first index `i` with
`a.time ≤ T ≤ b.time` for consecutive samples `a = buf[i]`,
`b = buf[i+1]`; `none` when no pair matches (the code then falls back to
the latest sample). -/
def scanPairs : List Sample → ℚ → Option Sample
  | a :: b :: rest, T =>
    if a.time ≤ T ∧ T ≤ b.time then some (lerpSample a b T)
    else scanPairs (b :: rest) T
  | _, _ => none

/-- `getInterpolatedPlayerState` on a buffer (client.js lines 206-239):
empty buffer yields nothing; clamp to the earliest sample when
`T ≤ buf[0].time`; clamp to the latest when `T ≥ last.time`; otherwise scan
for the bracketing pair, with the latest sample as fallback. -/
def getInterpBuf : List Sample → ℚ → Option Sample
  | [], _ => none
  | a :: rest, T =>
    if T ≤ a.time then some a
    else
      let last := (a :: rest).getLast (List.cons_ne_nil a rest)
      if last.time ≤ T then some last
      else
        match scanPairs (a :: rest) T with
        | some s => some s
        | none => some last

/-- `getInterpolatedPlayerState` (client.js lines 206-239) including the
buffer lookup: `playerBuffers.get(id)` missing or empty yields `null`. -/
def getInterpolatedPlayerState (bufs : List (ℕ × List Sample)) (id : ℕ) (T : ℚ) :
    Option Sample :=
  match List.lookup id bufs with
  | none => none
  | some buf => getInterpBuf buf T

/-- Strictly increasing sample timestamps, the documented buffer ordering
(spec section 3: ordered by timestamp ascending). -/
def timeSorted (l : List Sample) : Prop :=
  List.Chain' (fun a b : Sample => a.time < b.time) l

/-! ## Latency simulator (part_000 lines 27-34 and 121-130) -/

/-- WebSocket ready states; the source compares against
`WebSocket.OPEN`. -/
inductive ReadyState where
  | CONNECTING : ReadyState
  | OPEN : ReadyState
  | CLOSING : ReadyState
  | CLOSED : ReadyState
deriving DecidableEq

/-- `sendWithLag` (part_000 lines 27-34) as a delivery event: scheduled at
`t`, the timer fires at `t + LAG_MS`, and the liveness guard
`ws.readyState === WebSocket.OPEN` is evaluated inside the timer callback,
i.e. against the state at fire time.  `none` is a silent drop. -/
def sendWithLagDelivery (stateAt : ℕ → ReadyState) (t : ℕ) (data : String) :
    Option (ℕ × String) :=
  if stateAt (t + LAG_MS) = ReadyState.OPEN then some (t + LAG_MS, data) else none

/-- One connection's share of `broadcast` (part_000 lines 121-130): the
liveness guard is evaluated *before* `setTimeout`, i.e. against the state at
scheduling time `t`; the timer callback then calls `p.ws.send(data)`
unconditionally at `t + LAG_MS`. -/
def broadcastDelivery (stateAt : ℕ → ReadyState) (t : ℕ) (data : String) :
    Option (ℕ × String) :=
  if stateAt t = ReadyState.OPEN then some (t + LAG_MS, data) else none

/-! ## Movement integrator (part_000 lines 168-193), over the reals -/

namespace Motion

/-- `PLAYER_SPEED` (part_000 line 9) as a real. -/
noncomputable def PLAYER_SPEED : ℝ := 220

/-- `PLAYER_RADIUS` (part_000 line 7) as a real. -/
noncomputable def PLAYER_RADIUS : ℝ := 15

/-- `WORLD_WIDTH` (part_000 line 5) as a real. -/
noncomputable def WORLD_WIDTH : ℝ := 800

/-- `WORLD_HEIGHT` (part_000 line 6) as a real. -/
noncomputable def WORLD_HEIGHT : ℝ := 600

/-- `dx` after the four input tests (part_000 lines 169-174):
`left` contributes −1, `right` contributes +1. -/
noncomputable def rawDx (i : Input) : ℝ :=
  (if i.right then 1 else 0) - (if i.left then 1 else 0)

/-- `dy` after the four input tests (part_000 lines 170-172):
`up` contributes −1, `down` contributes +1. -/
noncomputable def rawDy (i : Input) : ℝ :=
  (if i.down then 1 else 0) - (if i.up then 1 else 0)

/-- `len = Math.hypot(dx, dy)` (part_000 line 177). -/
noncomputable def len (i : Input) : ℝ :=
  Real.sqrt (rawDx i ^ 2 + rawDy i ^ 2)

/-- Normalized `dx` (part_000 lines 178-181): divided by `len` only when
`len > 0`. -/
noncomputable def ndx (i : Input) : ℝ :=
  if 0 < len i then rawDx i / len i else rawDx i

/-- Normalized `dy` (part_000 lines 178-181). -/
noncomputable def ndy (i : Input) : ℝ :=
  if 0 < len i then rawDy i / len i else rawDy i

/-- `player.vx = dx * PLAYER_SPEED` (part_000 line 183). -/
noncomputable def vx (i : Input) : ℝ := ndx i * PLAYER_SPEED

/-- `player.vy = dy * PLAYER_SPEED` (part_000 line 184). -/
noncomputable def vy (i : Input) : ℝ := ndy i * PLAYER_SPEED

/-- One per-player movement step of `gameLoop` (part_000 lines 168-192):
integrate `pos += v * dt`, then clamp each axis independently with
`Math.max(R, Math.min(dimension - R, coord))`. -/
noncomputable def step (i : Input) (pos : ℝ × ℝ) (dt : ℝ) : ℝ × ℝ :=
  (max PLAYER_RADIUS (min (WORLD_WIDTH - PLAYER_RADIUS) (pos.1 + vx i * dt)),
   max PLAYER_RADIUS (min (WORLD_HEIGHT - PLAYER_RADIUS) (pos.2 + vy i * dt)))

end Motion

/-! ## Collision-pass lemmas (for claim C1) -/

/-- The collision test only reads positions, never the score. -/
lemma collides_set_score (p : Player) (s : ℕ) (x : Coin) :
    collides { p with score := s } x = collides p x := rfl

/-- Closed form of the per-player coin scan: the player's score grows by the
number of overlapping coins, and exactly the non-overlapping coins survive,
in order. -/
lemma collectCoins_eq (p : Player) (cs : List Coin) :
    collectCoins p cs =
      ({ p with score := p.score + cs.countP (fun x => collides p x) },
        cs.filter fun x => !collides p x) := by
  induction cs generalizing p with
  | nil => simp [collectCoins]
  | cons c cs ih =>
    by_cases hc : collides p c
    · simp only [collectCoins, if_pos hc, ih]
      simp only [collides_set_score]
      simp only [List.countP_cons, List.filter_cons, hc]
      simp
      omega
    · simp only [collectCoins, if_neg hc, ih]
      simp [List.countP_cons, List.filter_cons, hc]

/-- Unfolding of one player's turn in the collision pass. -/
lemma collisionPass_cons (p : Player) (ps : List Player) (cs : List Coin) :
    collisionPass (p :: ps) cs =
      ((collectCoins p cs).1 :: (collisionPass ps (collectCoins p cs).2).1,
        (collisionPass ps (collectCoins p cs).2).2) := rfl

/-- Coins surviving the collision pass are a subset of the initial coins. -/
lemma collisionPass_coins_subset (ps : List Player) :
    ∀ cs : List Coin, (collisionPass ps cs).2 ⊆ cs := by
  induction ps with
  | nil => intro cs; simp [collisionPass]
  | cons p ps ih =>
    intro cs
    rw [collisionPass_cons]
    refine (ih _).trans ?_
    rw [collectCoins_eq]
    exact List.filter_subset' cs

/-! ## Claim C1: first overlapping agent wins the pickup -/

/-- C1: in a tick where the live pickup `c` is overlapped by at least one
agent, with `p` the first overlapping agent in World-Model insertion order
(all agents `ps₁` before it do not overlap), the collision pass of the world
containing `c` differs from the collision pass of the world without `c` in
exactly one way: the first overlapping agent's score is one higher.  The
surviving coin lists are identical and do not contain `c` (the pickup is
removed exactly once), and every other agent's outcome — score included —
is unchanged by that pickup.  Overlap is boundary-inclusive
(`collides` uses `≤`). -/
theorem c1_pickup_first_agent_wins
    (ps₁ ps₂ : List Player) (p : Player) (l₁ l₂ : List Coin) (c : Coin)
    (hp : collides p c = true)
    (hfirst : ∀ q ∈ ps₁, collides q c = false)
    (hc₁ : c ∉ l₁) (hc₂ : c ∉ l₂) :
    ∃ (r₁ r₂ : List Player) (b : Player) (cs : List Coin),
      collisionPass (ps₁ ++ p :: ps₂) (l₁ ++ l₂) = (r₁ ++ b :: r₂, cs) ∧
      collisionPass (ps₁ ++ p :: ps₂) (l₁ ++ c :: l₂) =
        (r₁ ++ { b with score := b.score + 1 } :: r₂, cs) ∧
      r₁.length = ps₁.length ∧ b.id = p.id ∧ c ∉ cs := by
  revert hfirst hc₁ hc₂
  induction ps₁ generalizing l₁ l₂ with
  | nil =>
    intro hfirst hc₁ hc₂
    have hW : collectCoins p (l₁ ++ c :: l₂) =
        ({ p with score :=
            p.score + (l₁.countP (fun x => collides p x) +
              (l₂.countP (fun x => collides p x) + 1)) },
          (l₁.filter fun x => !collides p x) ++ (l₂.filter fun x => !collides p x)) := by
      rw [collectCoins_eq]
      simp [List.countP_append, List.countP_cons, List.filter_append, List.filter_cons, hp]
    have hW0 : collectCoins p (l₁ ++ l₂) =
        ({ p with score :=
            p.score + (l₁.countP (fun x => collides p x) +
              l₂.countP (fun x => collides p x)) },
          (l₁.filter fun x => !collides p x) ++ (l₂.filter fun x => !collides p x)) := by
      rw [collectCoins_eq]
      simp [List.countP_append, List.filter_append]
    refine ⟨[],
      (collisionPass ps₂
        ((l₁.filter fun x => !collides p x) ++ (l₂.filter fun x => !collides p x))).1,
      { p with score :=
          p.score + (l₁.countP (fun x => collides p x) +
            l₂.countP (fun x => collides p x)) },
      (collisionPass ps₂
        ((l₁.filter fun x => !collides p x) ++ (l₂.filter fun x => !collides p x))).2,
      ?_, ?_, rfl, rfl, ?_⟩
    · rw [List.nil_append, collisionPass_cons, hW0]
      rfl
    · have hsc : p.score + (l₁.countP (fun x => collides p x) +
          (l₂.countP (fun x => collides p x) + 1)) =
          p.score + (l₁.countP (fun x => collides p x) +
            l₂.countP (fun x => collides p x)) + 1 := by omega
      rw [List.nil_append, collisionPass_cons, hW, hsc]
      rfl
    · intro hmem
      rcases List.mem_append.mp (collisionPass_coins_subset ps₂ _ hmem) with h | h
      · exact hc₁ (List.filter_subset' l₁ h)
      · exact hc₂ (List.filter_subset' l₂ h)
  | cons q ps₁ ih =>
    intro hfirst hc₁ hc₂
    have hq : collides q c = false := hfirst q (List.mem_cons_self q ps₁)
    have hfirst2 : ∀ r ∈ ps₁, collides r c = false :=
      fun r hr => hfirst r (List.mem_cons_of_mem q hr)
    have hWq : collectCoins q (l₁ ++ c :: l₂) =
        ({ q with score :=
            q.score + (l₁.countP (fun x => collides q x) +
              l₂.countP (fun x => collides q x)) },
          (l₁.filter fun x => !collides q x) ++ c :: (l₂.filter fun x => !collides q x)) := by
      rw [collectCoins_eq]
      simp [List.countP_append, List.countP_cons, List.filter_append, List.filter_cons, hq]
    have hW0q : collectCoins q (l₁ ++ l₂) =
        ({ q with score :=
            q.score + (l₁.countP (fun x => collides q x) +
              l₂.countP (fun x => collides q x)) },
          (l₁.filter fun x => !collides q x) ++ (l₂.filter fun x => !collides q x)) := by
      rw [collectCoins_eq]
      simp [List.countP_append, List.filter_append]
    obtain ⟨r₁, r₂, b, cs, h0, h1, hlen, hid, hcs⟩ :=
      ih (l₁.filter fun x => !collides q x) (l₂.filter fun x => !collides q x) hfirst2
        (fun h => hc₁ (List.filter_subset' l₁ h)) (fun h => hc₂ (List.filter_subset' l₂ h))
    refine ⟨{ q with score :=
        q.score + (l₁.countP (fun x => collides q x) +
          l₂.countP (fun x => collides q x)) } :: r₁,
      r₂, b, cs, ?_, ?_, by simp [hlen], hid, hcs⟩
    · rw [List.cons_append, collisionPass_cons, hW0q]
      simp [h0]
    · rw [List.cons_append, collisionPass_cons, hWq]
      simp [h1]

/-- Witness for C1: two agents overlap the same coin in one tick — the
first one (at boundary-inclusive distance exactly
`PLAYER_RADIUS + COIN_RADIUS = 23`) gets the point. -/
theorem c1_pickup_first_agent_wins_witness :
    collides ⟨1, 23, 0, 0, 0, 0, ⟨false, false, false, false⟩, 10⟩ ⟨5, 0, 0⟩ = true ∧
    collides ⟨2, 0, 10, 0, 0, 0, ⟨false, false, false, false⟩, 11⟩ ⟨5, 0, 0⟩ = true ∧
    (∃ (r₁ r₂ : List Player) (b : Player) (cs : List Coin),
      collisionPass ([] ++ ⟨1, 23, 0, 0, 0, 0, ⟨false, false, false, false⟩, 10⟩ ::
          [⟨2, 0, 10, 0, 0, 0, ⟨false, false, false, false⟩, 11⟩]) ([] ++ []) =
        (r₁ ++ b :: r₂, cs) ∧
      collisionPass ([] ++ ⟨1, 23, 0, 0, 0, 0, ⟨false, false, false, false⟩, 10⟩ ::
          [⟨2, 0, 10, 0, 0, 0, ⟨false, false, false, false⟩, 11⟩]) ([] ++ ⟨5, 0, 0⟩ :: []) =
        (r₁ ++ { b with score := b.score + 1 } :: r₂, cs) ∧
      r₁.length = ([] : List Player).length ∧
      b.id = (⟨1, 23, 0, 0, 0, 0, ⟨false, false, false, false⟩, 10⟩ : Player).id ∧
      ⟨5, 0, 0⟩ ∉ cs) := by
  refine ⟨by with_unfolding_all rfl, by with_unfolding_all rfl, ?_⟩
  exact c1_pickup_first_agent_wins [] [⟨2, 0, 10, 0, 0, 0, ⟨false, false, false, false⟩, 11⟩]
    ⟨1, 23, 0, 0, 0, 0, ⟨false, false, false, false⟩, 10⟩ [] [] ⟨5, 0, 0⟩
    (by with_unfolding_all rfl) (by simp) (by simp) (by simp)

/-! ## Claim C3: post-step position bounds -/

/-- C3: for every agent input, starting position and elapsed time Δt ≥ 0,
the position after one movement step lies within
`[PLAYER_RADIUS, dimension - PLAYER_RADIUS]` on both axes, and each axis is
clamped independently: the new x-coordinate does not depend on the starting
y-coordinate and vice versa. -/
theorem c3_step_stays_in_bounds (i : Input) (x y dt : ℝ) (hdt : 0 ≤ dt) :
    (Motion.PLAYER_RADIUS ≤ (Motion.step i (x, y) dt).1 ∧
      (Motion.step i (x, y) dt).1 ≤ Motion.WORLD_WIDTH - Motion.PLAYER_RADIUS) ∧
    (Motion.PLAYER_RADIUS ≤ (Motion.step i (x, y) dt).2 ∧
      (Motion.step i (x, y) dt).2 ≤ Motion.WORLD_HEIGHT - Motion.PLAYER_RADIUS) ∧
    (∀ y2 : ℝ, (Motion.step i (x, y2) dt).1 = (Motion.step i (x, y) dt).1) ∧
    (∀ x2 : ℝ, (Motion.step i (x2, y) dt).2 = (Motion.step i (x, y) dt).2) := by
  refine ⟨⟨le_max_left _ _, ?_⟩, ⟨le_max_left _ _, ?_⟩, fun y2 => rfl, fun x2 => rfl⟩
  · exact max_le (by norm_num [Motion.PLAYER_RADIUS, Motion.WORLD_WIDTH]) (min_le_left _ _)
  · exact max_le (by norm_num [Motion.PLAYER_RADIUS, Motion.WORLD_HEIGHT]) (min_le_left _ _)

/-- Witness for C3: the all-false input at position (100, 200) with Δt = 1
stays put and satisfies the bounds. -/
theorem c3_step_stays_in_bounds_witness :
    (0 : ℝ) ≤ 1 ∧
    Motion.step ⟨false, false, false, false⟩ ((100 : ℝ), (200 : ℝ)) 1 = (100, 200) ∧
    (Motion.PLAYER_RADIUS ≤ (Motion.step ⟨false, false, false, false⟩ ((100 : ℝ), (200 : ℝ)) 1).1 ∧
      (Motion.step ⟨false, false, false, false⟩ ((100 : ℝ), (200 : ℝ)) 1).1 ≤
        Motion.WORLD_WIDTH - Motion.PLAYER_RADIUS) := by
  have heval : Motion.step ⟨false, false, false, false⟩ ((100 : ℝ), (200 : ℝ)) 1 = (100, 200) := by
    simp only [Motion.step, Motion.vx, Motion.vy, Motion.ndx, Motion.ndy, Motion.len,
      Motion.rawDx, Motion.rawDy, Motion.PLAYER_RADIUS, Motion.WORLD_WIDTH,
      Motion.WORLD_HEIGHT, Motion.PLAYER_SPEED]
    norm_num
  exact ⟨by norm_num, heval,
    (c3_step_stays_in_bounds ⟨false, false, false, false⟩ 100 200 1 (by norm_num)).1⟩

/-! ## Claim C5: direction normalization -/

/-- C5: for every combination of the four input flags the normalized
direction has magnitude at most 1, and whenever the raw direction is
non-zero the speed (magnitude of the velocity) is exactly `PLAYER_SPEED`,
so diagonal movement is as fast as axis-aligned movement. -/
theorem c5_normalized_speed (i : Input) :
    Real.sqrt (Motion.ndx i ^ 2 + Motion.ndy i ^ 2) ≤ 1 ∧
    (¬(Motion.rawDx i = 0 ∧ Motion.rawDy i = 0) →
      Real.sqrt (Motion.vx i ^ 2 + Motion.vy i ^ 2) = Motion.PLAYER_SPEED) := by
  by_cases h0 : Motion.rawDx i = 0 ∧ Motion.rawDy i = 0
  · obtain ⟨hx, hy⟩ := h0
    have hlen : Motion.len i = 0 := by simp [Motion.len, hx, hy]
    have hndx : Motion.ndx i = 0 := by simp [Motion.ndx, hlen, hx]
    have hndy : Motion.ndy i = 0 := by simp [Motion.ndy, hlen, hy]
    exact ⟨by simp [hndx, hndy], fun h => absurd ⟨hx, hy⟩ h⟩
  · have hd2 : 0 < Motion.rawDx i ^ 2 + Motion.rawDy i ^ 2 := by
      rcases not_and_or.mp h0 with h | h
      · have h1 : 0 < Motion.rawDx i ^ 2 :=
          lt_of_le_of_ne (sq_nonneg _) (Ne.symm (pow_ne_zero 2 h))
        nlinarith [sq_nonneg (Motion.rawDy i)]
      · have h1 : 0 < Motion.rawDy i ^ 2 :=
          lt_of_le_of_ne (sq_nonneg _) (Ne.symm (pow_ne_zero 2 h))
        nlinarith [sq_nonneg (Motion.rawDx i)]
    have hlen : 0 < Motion.len i := Real.sqrt_pos.mpr hd2
    have hlen2 : Motion.len i ^ 2 = Motion.rawDx i ^ 2 + Motion.rawDy i ^ 2 :=
      Real.sq_sqrt hd2.le
    have hsum : Motion.ndx i ^ 2 + Motion.ndy i ^ 2 = 1 := by
      rw [Motion.ndx, Motion.ndy, if_pos hlen, if_pos hlen, div_pow, div_pow,
        div_add_div_same, hlen2, div_self (ne_of_gt hd2)]
    refine ⟨by rw [hsum, Real.sqrt_one], fun _ => ?_⟩
    have hv : Motion.vx i ^ 2 + Motion.vy i ^ 2 = Motion.PLAYER_SPEED ^ 2 := by
      rw [Motion.vx, Motion.vy, mul_pow, mul_pow, ← add_mul, hsum, one_mul]
    rw [hv, Real.sqrt_sq (by norm_num [Motion.PLAYER_SPEED])]

/-- Witness for C5: the up-only input has non-zero raw direction and its
speed is exactly `PLAYER_SPEED`. -/
theorem c5_normalized_speed_witness :
    ¬(Motion.rawDx ⟨true, false, false, false⟩ = 0 ∧
        Motion.rawDy ⟨true, false, false, false⟩ = 0) ∧
    Real.sqrt (Motion.vx ⟨true, false, false, false⟩ ^ 2 +
        Motion.vy ⟨true, false, false, false⟩ ^ 2) = Motion.PLAYER_SPEED := by
  have h : ¬(Motion.rawDx ⟨true, false, false, false⟩ = 0 ∧
      Motion.rawDy ⟨true, false, false, false⟩ = 0) := by
    simp only [Motion.rawDx, Motion.rawDy]
    norm_num
  exact ⟨h, (c5_normalized_speed ⟨true, false, false, false⟩).2 h⟩

/-! ## Claim C6: clock-skew smoothing -/

/-- C6: every processed snapshot updates the skew estimate to exactly
`0.9 * previous + 0.1 * (serverTime - localNow)`; the estimate is seeded at
0; and a single snapshot with `serverTime - localNow = 500` from the initial
state yields exactly 50. -/
theorem c6_skew_update :
    (∀ (st : ClientState) (snap : Snapshot) (localNow : ℚ),
        (handleStateSnapshot st snap localNow).serverTimeOffset =
          (9 / 10) * st.serverTimeOffset + (1 / 10) * (snap.serverTime - localNow)) ∧
    initClientState.serverTimeOffset = 0 ∧
    (handleStateSnapshot initClientState
        { serverTime := 500, players := [], coins := [] } 0).serverTimeOffset = 50 := by
  refine ⟨fun st snap localNow => ?_, rfl, ?_⟩
  · show (0.9 : ℚ) * _ + (0.1 : ℚ) * _ = _
    norm_num
  · show (0.9 : ℚ) * initClientState.serverTimeOffset + (0.1 : ℚ) * ((500 : ℚ) - 0) = 50
    norm_num [initClientState]

/-! ## Claim C9: malformed and unknown messages -/

/-- C9: a payload that fails `JSON.parse`, a payload that parses to a
non-object, and a message with an unrecognized `type` all leave the entire
server state (players, coins, and the set of open sockets) unchanged; the
handler is a total function, so no such message terminates the process. -/
theorem c9_bad_messages_ignored :
    (∀ (st : ServerState) (ws : ℕ), processInbound st ws .malformed = st) ∧
    (∀ (st : ServerState) (ws : ℕ), processInbound st ws (.parsed .nonObject) = st) ∧
    (∀ (st : ServerState) (ws : ℕ) (m : ClientMsg), m.type ≠ "input" →
        processInbound st ws (.parsed (.obj m)) = st) := by
  refine ⟨fun st ws => rfl, fun st ws => rfl, fun st ws m hm => ?_⟩
  simp only [processInbound, handleClientMessage]
  cases findBySocket st.players ws <;> simp [hm]

/-- Witness for C9: a `"jump"`-typed message leaves a concrete server state
unchanged. -/
theorem c9_bad_messages_ignored_witness :
    (⟨"jump", false, false, false, false⟩ : ClientMsg).type ≠ "input" ∧
    processInbound ⟨[], [], [7]⟩ 7 (.parsed (.obj ⟨"jump", false, false, false, false⟩)) =
      ⟨[], [], [7]⟩ := by
  exact ⟨by decide, c9_bad_messages_ignored.2.2 _ _ _ (by decide)⟩

/-! ## Interpolation lemmas (for claims C4 and C10) -/

/-- In a strictly time-sorted buffer the head is earlier than the last
element of the tail. -/
lemma chain_head_lt_getLast :
    ∀ (l : List Sample) (a : Sample) (hl : l ≠ []),
      List.Chain' (fun s t : Sample => s.time < t.time) (a :: l) →
      a.time < (l.getLast hl).time := by
  intro l
  induction l with
  | nil => intro a hl; exact absurd rfl hl
  | cons b l ih =>
    intro a hl hch
    rw [List.chain'_cons] at hch
    cases l with
    | nil => simpa using hch.1
    | cons c l2 =>
      have h2 := ih b (List.cons_ne_nil c l2) hch.2
      rw [List.getLast_cons (List.cons_ne_nil c l2)]
      exact lt_trans hch.1 h2

/-- The bracketing scan succeeds on a strictly sorted buffer whenever the
render time lies strictly after the head and at or before the last sample:
it returns the interpolation of a consecutive pair with strictly increasing
times that encloses the render time. -/
lemma scanPairs_bracket :
    ∀ (rest : List Sample) (a : Sample) (T : ℚ),
      List.Chain' (fun s t : Sample => s.time < t.time) (a :: rest) →
      a.time < T → T ≤ ((a :: rest).getLast (List.cons_ne_nil a rest)).time →
      ∃ pr ∈ (a :: rest).zip rest, pr.1.time < pr.2.time ∧ pr.1.time ≤ T ∧ T ≤ pr.2.time ∧
        scanPairs (a :: rest) T = some (lerpSample pr.1 pr.2 T) := by
  intro rest
  induction rest with
  | nil =>
    intro a T hch haT hTl
    rw [List.getLast_singleton] at hTl
    exact absurd (lt_of_lt_of_le haT hTl) (lt_irrefl _)
  | cons b rest ih =>
    intro a T hch haT hTl
    rw [List.chain'_cons] at hch
    by_cases hTb : T ≤ b.time
    · refine ⟨(a, b), ?_, hch.1, le_of_lt haT, hTb, ?_⟩
      · rw [List.zip_cons_cons]
        exact List.mem_cons_self _ _
      · simp only [scanPairs]
        rw [if_pos ⟨le_of_lt haT, hTb⟩]
    · push_neg at hTb
      rw [List.getLast_cons (List.cons_ne_nil b rest)] at hTl
      obtain ⟨pr, hmem, h1, h2, h3, h4⟩ := ih b T hch.2 hTb hTl
      refine ⟨pr, ?_, h1, h2, h3, ?_⟩
      · rw [List.zip_cons_cons]
        exact List.mem_cons_of_mem _ hmem
      · simp only [scanPairs]
        rw [if_neg fun hcon => absurd hcon.2 (not_le.mpr hTb)]
        exact h4

/-! ## Claim C4: interpolation contract -/

/-- C4: the renderer returns nothing for a missing or empty buffer; clamps
to the earliest sample when `T` is at or before it and to the latest sample
when `T` is at or after it; and otherwise returns, for a consecutive
bracketing pair, the position linearly interpolated by
`(T - a.time) / (b.time - a.time)` with the score taken from the later
sample.  The concrete two-sample scenario of the spec (t=100 pos=(0,0),
t=200 pos=(100,0)) gives (50,0) at T=150, the earliest sample at T=50 and
the latest at T=300. -/
theorem c4_interpolation_contract :
    (∀ (bufs : List (ℕ × List Sample)) (id : ℕ) (T : ℚ),
        List.lookup id bufs = none ∨ List.lookup id bufs = some [] →
        getInterpolatedPlayerState bufs id T = none) ∧
    (∀ (buf : List Sample) (T : ℚ) (h : buf ≠ []),
        timeSorted buf → T ≤ (buf.head h).time →
        getInterpBuf buf T = some (buf.head h)) ∧
    (∀ (buf : List Sample) (T : ℚ) (h : buf ≠ []),
        timeSorted buf → (buf.getLast h).time ≤ T →
        getInterpBuf buf T = some (buf.getLast h)) ∧
    (∀ (buf : List Sample) (T : ℚ) (h : buf ≠ []),
        timeSorted buf → (buf.head h).time < T → T < (buf.getLast h).time →
        ∃ pr ∈ buf.zip buf.tail, pr.1.time ≤ T ∧ T ≤ pr.2.time ∧
          getInterpBuf buf T =
            some { time := T
                   x := pr.1.x + (pr.2.x - pr.1.x) * ((T - pr.1.time) / (pr.2.time - pr.1.time))
                   y := pr.1.y + (pr.2.y - pr.1.y) * ((T - pr.1.time) / (pr.2.time - pr.1.time))
                   score := pr.2.score }) ∧
    (getInterpBuf [⟨100, 0, 0, 3⟩, ⟨200, 100, 0, 7⟩] 150 = some ⟨150, 50, 0, 7⟩ ∧
      getInterpBuf [⟨100, 0, 0, 3⟩, ⟨200, 100, 0, 7⟩] 50 = some ⟨100, 0, 0, 3⟩ ∧
      getInterpBuf [⟨100, 0, 0, 3⟩, ⟨200, 100, 0, 7⟩] 300 = some ⟨200, 100, 0, 7⟩) := by
  refine ⟨?_, ?_, ?_, ?_, ?_, ?_, ?_⟩
  · intro bufs id T h
    rcases h with h | h <;> simp [getInterpolatedPlayerState, h, getInterpBuf]
  · intro buf T h hsort hT
    cases buf with
    | nil => exact absurd rfl h
    | cons a rest =>
      simp only [getInterpBuf, List.head_cons] at hT ⊢
      rw [if_pos hT]
  · intro buf T h hsort hT
    cases buf with
    | nil => exact absurd rfl h
    | cons a rest =>
      cases rest with
      | nil =>
        rw [List.getLast_singleton] at hT
        simp only [getInterpBuf, List.getLast_singleton]
        by_cases hTa : T ≤ a.time
        · rw [if_pos hTa]
        · rw [if_neg hTa, if_pos hT]
      | cons b rest2 =>
        have hlt : a.time < ((b :: rest2).getLast (List.cons_ne_nil b rest2)).time :=
          chain_head_lt_getLast (b :: rest2) a (List.cons_ne_nil b rest2) hsort
        rw [List.getLast_cons (List.cons_ne_nil b rest2)] at hT
        have hTa : ¬ T ≤ a.time := not_le.mpr (lt_of_lt_of_le hlt hT)
        simp only [getInterpBuf]
        rw [if_neg hTa]
        rw [List.getLast_cons (List.cons_ne_nil b rest2)]
        rw [if_pos hT]
  · intro buf T h hsort hhead hlast
    cases buf with
    | nil => exact absurd rfl h
    | cons a rest =>
      cases rest with
      | nil =>
        rw [List.head_cons] at hhead
        rw [List.getLast_singleton] at hlast
        exact absurd (lt_trans hhead hlast) (lt_irrefl _)
      | cons b rest2 =>
        rw [List.head_cons] at hhead
        obtain ⟨pr, hmem, hplt, hp1, hp2, hscan⟩ :=
          scanPairs_bracket (b :: rest2) a T hsort hhead (le_of_lt hlast)
        refine ⟨pr, hmem, hp1, hp2, ?_⟩
        have hTa : ¬ T ≤ a.time := not_le.mpr hhead
        have hTl : ¬ ((a :: b :: rest2).getLast
            (List.cons_ne_nil a (b :: rest2))).time ≤ T := not_le.mpr hlast
        simp only [getInterpBuf]
        rw [if_neg hTa, if_neg hTl, hscan]
        simp [lerpSample]
  · with_unfolding_all rfl
  · with_unfolding_all rfl
  · with_unfolding_all rfl

/-- Witness for C4: the concrete two-sample buffer is strictly sorted, and
the clamp-to-earliest branch of the contract applies at T = 50. -/
theorem c4_interpolation_contract_witness :
    timeSorted [⟨100, 0, 0, 3⟩, ⟨200, 100, 0, 7⟩] ∧
    getInterpBuf [⟨100, 0, 0, 3⟩, ⟨200, 100, 0, 7⟩] 50 =
      some (([⟨100, 0, 0, 3⟩, ⟨200, 100, 0, 7⟩] :
        List Sample).head (List.cons_ne_nil _ _)) := by
  have hs : timeSorted [⟨100, 0, 0, 3⟩, ⟨200, 100, 0, 7⟩] := by
    simp only [timeSorted, List.chain'_cons, List.chain'_singleton, and_true]
    norm_num
  refine ⟨hs, c4_interpolation_contract.2.1 _ 50 (List.cons_ne_nil _ _) hs ?_⟩
  show (50 : ℚ) ≤ 100
  norm_num

/-! ## Claim C10: totality of the interpolation lookup -/

/-- C10: on a non-empty buffer the renderer always produces a state, and on
a strictly time-sorted buffer with the render time strictly between the
earliest and latest samples, the bracketing pair it selects has strictly
increasing times, so the interpolation divisor `b.time - a.time` is
non-zero. -/
theorem c10_interpolation_total :
    (∀ (buf : List Sample) (T : ℚ), buf ≠ [] → ∃ s, getInterpBuf buf T = some s) ∧
    (∀ (buf : List Sample) (T : ℚ) (h : buf ≠ []),
        timeSorted buf → (buf.head h).time < T → T < (buf.getLast h).time →
        ∃ pr ∈ buf.zip buf.tail,
          pr.1.time < pr.2.time ∧ pr.2.time - pr.1.time ≠ 0 ∧
          pr.1.time ≤ T ∧ T ≤ pr.2.time ∧
          getInterpBuf buf T = some (lerpSample pr.1 pr.2 T)) := by
  constructor
  · intro buf T hne
    cases buf with
    | nil => exact absurd rfl hne
    | cons a rest =>
      by_cases h1 : T ≤ a.time
      · refine ⟨a, ?_⟩
        simp only [getInterpBuf]
        rw [if_pos h1]
      · by_cases h2 : ((a :: rest).getLast (List.cons_ne_nil a rest)).time ≤ T
        · refine ⟨(a :: rest).getLast (List.cons_ne_nil a rest), ?_⟩
          simp only [getInterpBuf]
          rw [if_neg h1, if_pos h2]
        · cases hscan : scanPairs (a :: rest) T with
          | none =>
            refine ⟨(a :: rest).getLast (List.cons_ne_nil a rest), ?_⟩
            simp only [getInterpBuf]
            rw [if_neg h1, if_neg h2, hscan]
          | some s =>
            refine ⟨s, ?_⟩
            simp only [getInterpBuf]
            rw [if_neg h1, if_neg h2, hscan]
  · intro buf T h hsort hhead hlast
    cases buf with
    | nil => exact absurd rfl h
    | cons a rest =>
      cases rest with
      | nil =>
        rw [List.head_cons] at hhead
        rw [List.getLast_singleton] at hlast
        exact absurd (lt_trans hhead hlast) (lt_irrefl _)
      | cons b rest2 =>
        rw [List.head_cons] at hhead
        obtain ⟨pr, hmem, hplt, hp1, hp2, hscan⟩ :=
          scanPairs_bracket (b :: rest2) a T hsort hhead (le_of_lt hlast)
        refine ⟨pr, hmem, hplt, sub_ne_zero.mpr (ne_of_gt hplt), hp1, hp2, ?_⟩
        have hTa : ¬ T ≤ a.time := not_le.mpr hhead
        have hTl : ¬ ((a :: b :: rest2).getLast
            (List.cons_ne_nil a (b :: rest2))).time ≤ T := not_le.mpr hlast
        simp only [getInterpBuf]
        rw [if_neg hTa, if_neg hTl, hscan]

/-- Witness for C10: a singleton buffer yields a rendered state at any
render time. -/
theorem c10_interpolation_total_witness :
    ∃ s, getInterpBuf [⟨0, 0, 0, 0⟩] 5 = some s :=
  c10_interpolation_total.1 [⟨0, 0, 0, 0⟩] 5 (List.cons_ne_nil _ _)

/-! ## Buffer lemmas (for claims C7 and C8) -/

/-- The eviction loop always leaves at most `BUFFER_CAP` samples. -/
lemma trimBuf_length_le (l : List Sample) : (trimBuf l).length ≤ BUFFER_CAP := by
  simp only [trimBuf, List.length_drop]
  omega

/-- Any entry of an updated buffer map is either an untouched entry with a
different id, or has just been pushed-and-evicted (hence is within
capacity). -/
lemma mem_pushSampleTo (bufs : List (ℕ × List Sample)) (id : ℕ) (s : Sample)
    (pr : ℕ × List Sample) (hpr : pr ∈ pushSampleTo bufs id s) :
    (pr ∈ bufs ∧ pr.1 ≠ id) ∨ pr.2.length ≤ BUFFER_CAP := by
  unfold pushSampleTo at hpr
  by_cases hany : bufs.any fun q => q.1 == id
  · rw [if_pos hany] at hpr
    obtain ⟨q, hq, hqe⟩ := List.mem_map.mp hpr
    by_cases hid : (q.1 == id) = true
    · right
      rw [if_pos hid] at hqe
      rw [← hqe]
      exact trimBuf_length_le _
    · left
      rw [if_neg hid] at hqe
      refine ⟨hqe ▸ hq, ?_⟩
      rw [← hqe]
      simpa using hid
  · rw [if_neg hany] at hpr
    rcases List.mem_append.mp hpr with h | h
    · left
      refine ⟨h, ?_⟩
      simp only [List.any_eq_true, not_exists, not_and] at hany
      intro he
      exact hany pr h (by simp [he])
    · right
      have : pr = (id, pushSample [] s) := by simpa using h
      rw [this]
      exact trimBuf_length_le _

/-- Every entry of the buffer map after the snapshot's append loop is either
an untouched entry for an id absent from the snapshot, or is within
capacity. -/
lemma mem_updateBuffers :
    ∀ (ps : List PlayerSnap) (bufs : List (ℕ × List Sample)) (t : ℚ)
      (pr : ℕ × List Sample), pr ∈ updateBuffers bufs t ps →
      (pr ∈ bufs ∧ ∀ q ∈ ps, q.id ≠ pr.1) ∨ pr.2.length ≤ BUFFER_CAP := by
  intro ps
  induction ps with
  | nil =>
    intro bufs t pr h
    exact Or.inl ⟨h, by simp⟩
  | cons q ps ih =>
    intro bufs t pr h
    rcases ih (pushSampleTo bufs q.id ⟨t, q.x, q.y, q.score⟩) t pr h with ⟨hmem, hall⟩ | hle
    · rcases mem_pushSampleTo _ _ _ _ hmem with ⟨hmem2, hne⟩ | hle2
      · refine Or.inl ⟨hmem2, ?_⟩
        intro r hr
        rcases List.mem_cons.mp hr with heq | hr2
        · rw [heq]
          exact hne.symm
        · exact hall r hr2
      · exact Or.inr hle2
    · exact Or.inr hle

/-! ## Claim C7: buffer capacity and eviction order -/

set_option maxRecDepth 8000 in
/-- C7: after processing any snapshot every per-agent buffer holds at most
`BUFFER_CAP = 50` samples; and appending 51 samples (timestamps 0..50) to an
empty buffer evicts exactly the first-appended sample, leaving the remaining
50 in timestamp order. -/
theorem c7_buffer_capacity :
    (∀ (st : ClientState) (snap : Snapshot) (localNow : ℚ) (pr : ℕ × List Sample),
        pr ∈ (handleStateSnapshot st snap localNow).playerBuffers →
        pr.2.length ≤ BUFFER_CAP) ∧
    ((List.range 51).foldl (fun b k => pushSample b ⟨(k : ℚ), 0, 0, 0⟩) [] =
      (List.range 50).map fun k => ⟨((k : ℚ) + 1), 0, 0, 0⟩) := by
  constructor
  · intro st snap localNow pr hpr
    have hpr2 : pr ∈ updateBuffers st.playerBuffers snap.serverTime snap.players ∧
        (snap.players.any fun q => q.id == pr.1) = true := by
      simpa [handleStateSnapshot, cleanupBuffers, List.mem_filter] using hpr
    rcases mem_updateBuffers _ _ _ _ hpr2.1 with ⟨hmem, hall⟩ | hle
    · exfalso
      obtain ⟨q, hq, he⟩ := List.any_eq_true.mp hpr2.2
      exact hall q hq (by simpa using he)
    · exact hle
  · with_unfolding_all rfl

/-- Witness for C7: a one-player snapshot on the initial client state yields
a singleton buffer that is within capacity. -/
theorem c7_buffer_capacity_witness :
    ((1, [⟨0, 0, 0, 0⟩]) : ℕ × List Sample) ∈
      (handleStateSnapshot initClientState ⟨0, [⟨1, 0, 0, 0⟩], []⟩ 0).playerBuffers ∧
    ([⟨0, 0, 0, 0⟩] : List Sample).length ≤ BUFFER_CAP := by
  have hb : (handleStateSnapshot initClientState ⟨0, [⟨1, 0, 0, 0⟩], []⟩ 0).playerBuffers =
      [(1, [⟨0, 0, 0, 0⟩])] := by with_unfolding_all rfl
  have hmem : ((1, [⟨0, 0, 0, 0⟩]) : ℕ × List Sample) ∈
      (handleStateSnapshot initClientState ⟨0, [⟨1, 0, 0, 0⟩], []⟩ 0).playerBuffers := by
    rw [hb]
    exact List.mem_singleton_self _
  exact ⟨hmem, c7_buffer_capacity.1 initClientState ⟨0, [⟨1, 0, 0, 0⟩], []⟩ 0 _ hmem⟩

/-! ## Disconnect lemmas (for claim C8) -/

/-- Removing by socket deletes exactly the first matching player. -/
lemma removeBySocket_eq :
    ∀ (l₁ : List Player) (p : Player) (l₂ : List Player),
      (∀ q ∈ l₁, q.ws ≠ p.ws) →
      removePlayerBySocket (l₁ ++ p :: l₂) p.ws = l₁ ++ l₂ := by
  intro l₁
  induction l₁ with
  | nil =>
    intro p l₂ h
    simp [removePlayerBySocket]
  | cons q l₁ ih =>
    intro p l₂ h
    have hq : q.ws ≠ p.ws := h q (List.mem_cons_self q l₁)
    simp only [List.cons_append, removePlayerBySocket, if_neg hq]
    exact congrArg (q :: ·) (ih p l₂ fun r hr => h r (List.mem_cons_of_mem q hr))

/-- A key whose every occurrence fails the filter predicate cannot be looked
up after filtering. -/
lemma lookup_filter_eq_none (id : ℕ) (l : List (ℕ × List Sample))
    (cond : ℕ × List Sample → Bool)
    (h : ∀ pr ∈ l, pr.1 = id → cond pr = false) :
    List.lookup id (l.filter cond) = none := by
  induction l with
  | nil => rfl
  | cons pr l ih =>
    obtain ⟨k, v⟩ := pr
    have hrec := ih fun r hr he => h r (List.mem_cons_of_mem _ hr) he
    by_cases hc : cond (k, v) = true
    · have hk : (id == k) = false := by
        simp only [beq_eq_false_iff_ne, ne_eq]
        intro hik
        rw [h (k, v) (List.mem_cons_self _ _) hik.symm] at hc
        exact Bool.false_ne_true hc
      rw [List.filter_cons_of_pos hc]
      simp only [List.lookup, hk]
      exact hrec
    · rw [List.filter_cons_of_neg hc]
      exact hrec

/-! ## Claim C8: disconnect removes the agent everywhere -/

/-- C8: when the (unique) player owning a closing socket is removed, its id
is absent from the next broadcast snapshot; and on the client, processing a
snapshot deletes the buffer of every id absent from that snapshot's player
list. -/
theorem c8_disconnect_cleanup :
    (∀ (l₁ l₂ : List Player) (p : Player) (now : ℚ) (coins : List Coin),
        (∀ q ∈ l₁, q.ws ≠ p.ws) →
        (∀ q ∈ l₁ ++ l₂, q.id ≠ p.id) →
        p.id ∉ (buildSnapshot now (removePlayerBySocket (l₁ ++ p :: l₂) p.ws) coins).players.map
            fun q => q.id) ∧
    (∀ (st : ClientState) (snap : Snapshot) (localNow : ℚ) (id : ℕ),
        id ∉ snap.players.map (fun q => q.id) →
        List.lookup id (handleStateSnapshot st snap localNow).playerBuffers = none) := by
  constructor
  · intro l₁ l₂ p now coins hws hid
    rw [removeBySocket_eq l₁ p l₂ hws]
    intro hmem
    simp only [buildSnapshot, List.map_map, List.mem_map] at hmem
    obtain ⟨q, hq, he⟩ := hmem
    exact hid q hq (by simpa using he)
  · intro st snap localNow id hid
    apply lookup_filter_eq_none
    intro pr hpr he
    rw [List.any_eq_false]
    intro q hq
    intro hbeq
    refine hid (List.mem_map.mpr ⟨q, hq, ?_⟩)
    have hqe : q.id = pr.1 := by simpa using hbeq
    rw [hqe, he]

/-- Witness for C8: removing the player on socket 10 makes id 1 vanish from
the next snapshot, and a snapshot listing only id 2 deletes id 1's buffer. -/
theorem c8_disconnect_cleanup_witness :
    (1 : ℕ) ∉ (buildSnapshot 0
        (removePlayerBySocket
          ([] ++ ⟨1, 0, 0, 0, 0, 0, ⟨false, false, false, false⟩, 10⟩ ::
            [⟨2, 1, 1, 0, 0, 0, ⟨false, false, false, false⟩, 11⟩])
          (⟨1, 0, 0, 0, 0, 0, ⟨false, false, false, false⟩, 10⟩ : Player).ws)
        []).players.map (fun q => q.id) ∧
    List.lookup 1 (handleStateSnapshot ⟨0, [(1, [⟨0, 0, 0, 0⟩])], []⟩
        ⟨0, [⟨2, 0, 0, 0⟩], []⟩ 0).playerBuffers = none := by
  constructor
  · exact c8_disconnect_cleanup.1 [] [⟨2, 1, 1, 0, 0, 0, ⟨false, false, false, false⟩, 11⟩]
      ⟨1, 0, 0, 0, 0, 0, ⟨false, false, false, false⟩, 10⟩ 0 []
      (by simp) (by simp)
  · exact c8_disconnect_cleanup.2 ⟨0, [(1, [⟨0, 0, 0, 0⟩])], []⟩
      ⟨0, [⟨2, 0, 0, 0⟩], []⟩ 0 1 (by simp)

/-! ## Claim C2: latency-layer delivery (corrected) -/

/-- C2 counterexample: a connection that is OPEN at scheduling time but
CLOSED at fire time still has its broadcast message sent (`p.ws.send` runs
unconditionally inside the timer), contradicting the claim that the
liveness check happens at send (fire) time for the per-tick broadcast. -/
theorem c2_latency_counterexample :
    broadcastDelivery (fun u => if u = 0 then ReadyState.OPEN else ReadyState.CLOSED) 0 "state"
        = some (LAG_MS, "state") ∧
    (fun u => if u = 0 then ReadyState.OPEN else ReadyState.CLOSED) (0 + LAG_MS)
        = ReadyState.CLOSED := by
  exact ⟨rfl, rfl⟩

/-- C2 amended: every delivered message (either path) is delivered exactly
`LAG_MS` after scheduling; `sendWithLag` silently drops exactly when the
connection is not OPEN at fire time; but `broadcast` decides at scheduling
time — it silently skips exactly when the connection is not OPEN at
scheduling time, and otherwise sends at fire time unconditionally. -/
theorem c2_latency_amended (stateAt : ℕ → ReadyState) (t : ℕ) (d : String) :
    (∀ r, sendWithLagDelivery stateAt t d = some r → r = (t + LAG_MS, d)) ∧
    (sendWithLagDelivery stateAt t d = none ↔ stateAt (t + LAG_MS) ≠ ReadyState.OPEN) ∧
    (∀ r, broadcastDelivery stateAt t d = some r → r = (t + LAG_MS, d)) ∧
    (broadcastDelivery stateAt t d = none ↔ stateAt t ≠ ReadyState.OPEN) := by
  refine ⟨fun r hr => ?_, ?_, fun r hr => ?_, ?_⟩
  · by_cases hc : stateAt (t + LAG_MS) = ReadyState.OPEN
    · simp only [sendWithLagDelivery, if_pos hc] at hr
      exact (Option.some.inj hr).symm
    · simp [sendWithLagDelivery, if_neg hc] at hr
  · by_cases hc : stateAt (t + LAG_MS) = ReadyState.OPEN <;>
      simp [sendWithLagDelivery, hc]
  · by_cases hc : stateAt t = ReadyState.OPEN
    · simp only [broadcastDelivery, if_pos hc] at hr
      exact (Option.some.inj hr).symm
    · simp [broadcastDelivery, if_neg hc] at hr
  · by_cases hc : stateAt t = ReadyState.OPEN <;>
      simp [broadcastDelivery, hc]

/-- Witness for C2 amended: an always-open connection receives the message
exactly `LAG_MS` after scheduling, and a broadcast to an always-closed
connection is silently skipped. -/
theorem c2_latency_amended_witness :
    ((100, "x") : ℕ × String) = (0 + LAG_MS, "x") ∧
    broadcastDelivery (fun _ => ReadyState.CLOSED) 0 "x" = none := by
  exact ⟨(c2_latency_amended (fun _ => ReadyState.OPEN) 0 "x").1 (100, "x") rfl,
    (c2_latency_amended (fun _ => ReadyState.CLOSED) 0 "x").2.2.2.mpr (by decide)⟩

end CoinGame
